import Mathlib

/-!
Shallow embedding of the path-translation and file-handle layer of the
basic_fuse userspace filesystem (src/basic_fuse.c).  Backend syscalls
(pread, pwrite, opendir, lstat, rename, close) are modelled as explicit
oracle values consumed by the embedded operations, and each operation
additionally records the trace of backend calls it issues, so that
statements about which backend calls are made can be expressed and proved.
Machine-integer casts that the code performs (the uint64 handle slot cast
to a C int in basic_release) are modelled explicitly on Nat and Int.
-/

namespace BasicFuse

/-- Errno value for an interrupted syscall, as on the target platform. -/
def EINTR : Nat := 4

/-- Errno value for an invalid argument, as on the target platform. -/
def EINVAL : Nat := 22

/-- Platform bound on path buffers; every on-stack path buffer in the code
has this size. -/
def PATH_MAX : Nat := 4096

/-- Backend data directory, the fixed backend root of the code. -/
def DIR_PATH : List Char := "/tmp/fuse_data".data

/-- Embedding of get_full_path: snprintf with format "%s%s" applied to
DIR_PATH and the virtual path into a buffer of outSize bytes keeps the
first outSize - 1 characters of the concatenation and always writes a
terminating NUL.  The buffer content is modelled as the list of characters
before the terminator; the terminator fits exactly when that list is
shorter than outSize. -/
def get_full_path (path : List Char) (outSize : Nat) : List Char :=
  (DIR_PATH ++ path).take (outSize - 1)

/-- The fuse_file_info fields used by the embedded operations: fh is the
uint64 handle slot. -/
structure FileInfo where
  fh : Nat
deriving DecidableEq, Repr

/-- Conversion of a uint64 value to a C int: truncation to 32 bits, read in
two-complement form, matching the cast (int) fi->fh in basic_release. -/
def toCInt (n : Nat) : Int :=
  if n % 2 ^ 32 < 2 ^ 31 then ((n % 2 ^ 32 : Nat) : Int)
  else ((n % 2 ^ 32 : Nat) : Int) - 2 ^ 32

/-- Embedding of basic_open: the backend open syscall is an oracle giving
either a fresh descriptor or an errno; on success the descriptor is bound
into fh and 0 is returned, on failure the session is unchanged and the
negated errno is returned. -/
def basic_open (fi : FileInfo) (backend : Except Nat Nat) : FileInfo × Int :=
  match backend with
  | .error e => (fi, -(e : Int))
  | .ok fd => ({ fh := fd }, 0)

/-- Flag bit O_CREAT on the target platform. -/
def O_CREAT : Nat := 64

/-- Flag bit O_WRONLY on the target platform. -/
def O_WRONLY : Nat := 1

/-- Flag bit O_APPEND on the target platform. -/
def O_APPEND : Nat := 1024

/-- Embedding of basic_create: computes the open flags (create plus
write-only, keeping append when the caller flags ask for it), then binds
the descriptor returned by the backend open exactly as basic_open does.
Returns the flags passed to the backend open, the updated session and the
returned code. -/
def basic_create (callerFlags : Nat) (fi : FileInfo) (backend : Except Nat Nat) :
    Nat × FileInfo × Int :=
  let flags := if Nat.land callerFlags O_APPEND ≠ 0
    then O_CREAT ||| O_WRONLY ||| O_APPEND
    else O_CREAT ||| O_WRONLY
  match backend with
  | .error e => (flags, fi, -(e : Int))
  | .ok fd => (flags, { fh := fd }, 0)

/-- Observable outcome of basic_release: the close calls issued to the
backend (each carrying the descriptor closed), the fuse_file_info after the
call, and the returned code. -/
structure ReleaseOutcome where
  closeCalls : List Int
  fi : FileInfo
  ret : Int
deriving DecidableEq, Repr

/-- Embedding of basic_release: reads fd as the C int cast of fi.fh, closes
it and zeroes the handle slot when fd is non-negative, and always
returns 0. -/
def basic_release (fi : FileInfo) : ReleaseOutcome :=
  let fd := toCInt fi.fh
  if 0 ≤ fd then ⟨[fd], { fh := 0 }, 0⟩ else ⟨[], fi, 0⟩

/-- Backend response to one pread call: the bytes actually read, or an
errno. -/
inductive PreadResult where
  | ok (data : List Nat)
  | err (e : Nat)
deriving DecidableEq, Repr

/-- Conformance of a pread oracle to the POSIX contract: a successful read
returns at most the requested byte count, and a failing one sets a nonzero
errno. -/
def preadConforms (size : Nat) : PreadResult → Bool
  | .ok data => decide (data.length ≤ size)
  | .err e => decide (1 ≤ e)

/-- Observable outcome of basic_read: the (offset, size) pread calls issued
and the returned code. -/
structure ReadOutcome where
  calls : List (Int × Nat)
  ret : Int
deriving DecidableEq, Repr

/-- Embedding of basic_read: exactly one pread at the given offset for up
to size bytes; returns the byte count actually read on success and the
negated errno on failure. -/
def basic_read (size : Nat) (offset : Int) (backend : PreadResult) : ReadOutcome :=
  ⟨[(offset, size)],
    match backend with
    | .ok data => (data.length : Int)
    | .err e => -(e : Int)⟩

/-- Backend response to one pwrite call: the byte count accepted, or an
errno. -/
inductive PwriteResult where
  | ok (n : Nat)
  | err (e : Nat)
deriving DecidableEq, Repr

/-- How a run of the write-retry loop ends: all bytes accepted, a hard
error returned, or the finite oracle ran out of responses while bytes were
still unwritten. -/
inductive WriteOutcome where
  | complete
  | fail (e : Nat)
  | pending
deriving DecidableEq, Repr

/-- Trace of one run of the write-retry loop: the (offset, count) pwrite
calls issued in order, the byte counts the backend accepted in order, and
how the loop ended. -/
structure WriteTrace where
  calls : List (Int × Nat)
  accepted : List Nat
  outcome : WriteOutcome
deriving DecidableEq, Repr

/-- Embedding of the loop of basic_write: while bytes remain, issue a
pwrite at the current offset for the remaining count; on errno EINTR retry
without consuming progress, on any other errno return it as a hard
failure, and on an accepted count advance the offset and shrink the
remaining window by that count. -/
def writeLoop : Nat → Int → List PwriteResult → WriteTrace
  | 0, _, _ => ⟨[], [], .complete⟩
  | _ + 1, _, [] => ⟨[], [], .pending⟩
  | tw + 1, off, .err e :: rest =>
    if e = EINTR then
      let t := writeLoop (tw + 1) off rest
      ⟨(off, tw + 1) :: t.calls, t.accepted, t.outcome⟩
    else ⟨[(off, tw + 1)], [], .fail e⟩
  | tw + 1, off, .ok n :: rest =>
    let t := writeLoop (tw + 1 - n) (off + (n : Int)) rest
    ⟨(off, tw + 1) :: t.calls, n :: t.accepted, t.outcome⟩

/-- The C return value of basic_write as a function of how the loop ended:
the original requested size on completion, the negated errno on failure,
and none when the finite oracle was exhausted before either. -/
def cReturn (size : Nat) : WriteOutcome → Option Int
  | .complete => some (size : Int)
  | .fail e => some (-(e : Int))
  | .pending => none

/-- Embedding of basic_write: runs the retry loop on the whole requested
size starting at the given offset and pairs the loop trace with the C
return value. -/
def basic_write (size : Nat) (offset : Int) (rs : List PwriteResult) :
    WriteTrace × Option Int :=
  let t := writeLoop size offset rs
  (t, cReturn size t.outcome)

/-- Conformance of a pwrite oracle to the POSIX contract along the course
of the loop: every accepted count is at most the bytes remaining at that
point, and every errno is nonzero. -/
def conformsW : Nat → List PwriteResult → Bool
  | _, [] => true
  | tw, .err e :: rest => decide (1 ≤ e) && conformsW tw rest
  | tw, .ok n :: rest => decide (n ≤ tw) && conformsW (tw - n) rest

/-- Progress property of a pwrite oracle: every successful response accepts
at least one byte, matching the behaviour of a blocking pwrite on a regular
file with a nonzero count. -/
def progressW : Nat → List PwriteResult → Bool
  | _, [] => true
  | tw, .err _ :: rest => progressW tw rest
  | tw, .ok n :: rest => decide (1 ≤ n) && progressW (tw - n) rest

/-- Total byte count accepted across all successful responses of a pwrite
oracle. -/
def totalOk : List PwriteResult → Nat
  | [] => 0
  | .ok n :: rest => n + totalOk rest
  | .err _ :: rest => totalOk rest

/-- Whether a pwrite oracle contains a non-interrupt error response. -/
def hasHardError : List PwriteResult → Bool
  | [] => false
  | .ok _ :: rest => hasHardError rest
  | .err e :: rest => decide (e ≠ EINTR) || hasHardError rest

/-- Number of interrupt responses in a pwrite oracle. -/
def countEintr : List PwriteResult → Nat
  | [] => 0
  | .ok _ :: rest => countEintr rest
  | .err e :: rest => (if e = EINTR then 1 else 0) + countEintr rest

/-- Whether one pwrite response is a non-interrupt error. -/
def isHard : PwriteResult → Bool
  | .ok _ => false
  | .err e => decide (e ≠ EINTR)

/-- Resolved metadata of a directory entry, as filled by lstat. -/
structure Stat where
  mode : Nat
  size : Nat
deriving DecidableEq, Repr

/-- One raw backend directory entry: its name together with the oracle
result of the per-entry lstat on the built child path (none models an lstat
failure). -/
structure DirEntry where
  name : List Char
  lstatResult : Option Stat
deriving DecidableEq, Repr

/-- Embedding of the loop of basic_readdir: for each raw entry, skip it
when its lstat fails, otherwise hand it to the filler callback; stop early
when the filler signals a full buffer, and return the final consumer
state. -/
def readdirLoop {σ : Type} (filler : σ → List Char → Stat → σ × Bool) :
    List DirEntry → σ → σ
  | [], s => s
  | e :: rest, s =>
    match e.lstatResult with
    | none => readdirLoop filler rest s
    | some st =>
      let fr := filler s e.name st
      if fr.2 then fr.1 else readdirLoop filler rest fr.1

/-- Embedding of basic_readdir: the backend opendir is an oracle giving
either the raw entry list or an errno; on failure the negated errno is
returned with the consumer state untouched, on success the entry loop runs
and 0 is returned. -/
def basic_readdir {σ : Type} (openResult : Except Nat (List DirEntry))
    (filler : σ → List Char → Stat → σ × Bool) (s0 : σ) : σ × Int :=
  match openResult with
  | .error e => (s0, -(e : Int))
  | .ok entries => (readdirLoop filler entries s0, 0)

/-- The entries of a raw listing whose lstat succeeded, paired with their
resolved metadata, in listing order. -/
def statOkEntries (entries : List DirEntry) : List (List Char × Stat) :=
  entries.filterMap (fun e => e.lstatResult.map (fun st => (e.name, st)))

/-- A filler that collects every emitted entry and never signals a full
buffer; used to observe what an enumeration yields. -/
def collectFiller (s : List (List Char × Stat)) (n : List Char) (st : Stat) :
    List (List Char × Stat) × Bool :=
  (s ++ [(n, st)], false)

/-- Observable outcome of basic_rename: the (source, destination) backend
rename calls issued and the returned code. -/
structure RenameOutcome where
  backendCalls : List (List Char × List Char)
  ret : Int
deriving DecidableEq, Repr

/-- Embedding of basic_rename: a nonzero flags argument is rejected with
EINVAL before anything touches the backend; with zero flags both paths are
translated and exactly one backend rename is attempted, whose oracle result
is mapped to 0 or the negated errno. -/
def basic_rename (f t : List Char) (flags : Nat) (backend : Except Nat Unit) :
    RenameOutcome :=
  if flags ≠ 0 then ⟨[], -(EINVAL : Int)⟩
  else
    let ff := get_full_path f PATH_MAX
    let ft := get_full_path t PATH_MAX
    match backend with
    | .ok _ => ⟨[(ff, ft)], 0⟩
    | .error e => ⟨[(ff, ft)], -(e : Int)⟩

theorem writeLoop_zero (off : Int) (rs : List PwriteResult) :
    writeLoop 0 off rs = ⟨[], [], .complete⟩ := by
  cases rs <;> rfl

theorem writeLoop_nil (tw : Nat) (off : Int) :
    writeLoop (tw + 1) off [] = ⟨[], [], .pending⟩ := rfl

theorem writeLoop_err (tw : Nat) (off : Int) (e : Nat) (rest : List PwriteResult) :
    writeLoop (tw + 1) off (.err e :: rest) =
      if e = EINTR then
        ⟨(off, tw + 1) :: (writeLoop (tw + 1) off rest).calls,
         (writeLoop (tw + 1) off rest).accepted,
         (writeLoop (tw + 1) off rest).outcome⟩
      else ⟨[(off, tw + 1)], [], .fail e⟩ := rfl

theorem writeLoop_ok (tw : Nat) (off : Int) (n : Nat) (rest : List PwriteResult) :
    writeLoop (tw + 1) off (.ok n :: rest) =
      ⟨(off, tw + 1) :: (writeLoop (tw + 1 - n) (off + (n : Int)) rest).calls,
       n :: (writeLoop (tw + 1 - n) (off + (n : Int)) rest).accepted,
       (writeLoop (tw + 1 - n) (off + (n : Int)) rest).outcome⟩ := rfl

/-- Claim C3: for every virtual path p, the translation with the platform
buffer size is exactly the backend root concatenated with p truncated to
the buffer bound minus the terminator, its length always leaves room for
the terminating NUL, it equals the plain concatenation whenever that fits,
and even when truncated it is an initial segment of the concatenation. -/
theorem c3_translate_concat_truncated (p : List Char) :
    get_full_path p PATH_MAX = (DIR_PATH ++ p).take (PATH_MAX - 1) ∧
    (get_full_path p PATH_MAX).length < PATH_MAX ∧
    ((DIR_PATH ++ p).length ≤ PATH_MAX - 1 → get_full_path p PATH_MAX = DIR_PATH ++ p) ∧
    (∃ rest, DIR_PATH ++ p = get_full_path p PATH_MAX ++ rest) := by
  refine ⟨rfl, ?_, ?_, ?_⟩
  · simp only [get_full_path, PATH_MAX, List.length_take]
    omega
  · intro hle
    simpa [get_full_path] using List.take_of_length_le hle
  · exact ⟨(DIR_PATH ++ p).drop (PATH_MAX - 1), (List.take_append_drop _ _).symm⟩

/-- Witness for C3 at the concrete virtual path /a. -/
theorem c3_translate_concat_truncated_witness :
    get_full_path "/a".data PATH_MAX = (DIR_PATH ++ "/a".data).take (PATH_MAX - 1) ∧
    (get_full_path "/a".data PATH_MAX).length < PATH_MAX ∧
    ((DIR_PATH ++ "/a".data).length ≤ PATH_MAX - 1 →
      get_full_path "/a".data PATH_MAX = DIR_PATH ++ "/a".data) ∧
    (∃ rest, DIR_PATH ++ "/a".data = get_full_path "/a".data PATH_MAX ++ rest) :=
  c3_translate_concat_truncated "/a".data

/-- Claim C4: a rename with nonzero flags returns the negated EINVAL code
and issues no backend rename call, while with zero flags exactly one
backend rename on the two translated paths is attempted. -/
theorem c4_rename_nonzero_flags_rejected (f t : List Char) (flags : Nat)
    (backend : Except Nat Unit) :
    (flags ≠ 0 →
      (basic_rename f t flags backend).ret = -(EINVAL : Int) ∧
      (basic_rename f t flags backend).backendCalls = []) ∧
    (flags = 0 →
      (basic_rename f t flags backend).backendCalls =
        [(get_full_path f PATH_MAX, get_full_path t PATH_MAX)]) := by
  constructor
  · intro hf
    simp [basic_rename, hf]
  · intro hf
    subst hf
    cases backend <;> simp [basic_rename]

/-- Witness for C4 at concrete paths and the concrete flags value 1. -/
theorem c4_rename_nonzero_flags_rejected_witness :
    ((1 : Nat) ≠ 0 →
      (basic_rename "/a".data "/b".data 1 (Except.ok ())).ret = -(EINVAL : Int) ∧
      (basic_rename "/a".data "/b".data 1 (Except.ok ())).backendCalls = []) ∧
    ((1 : Nat) = 0 →
      (basic_rename "/a".data "/b".data 1 (Except.ok ())).backendCalls =
        [(get_full_path "/a".data PATH_MAX, get_full_path "/b".data PATH_MAX)]) :=
  c4_rename_nonzero_flags_rejected "/a".data "/b".data 1 (Except.ok ())

/-- Claim C5: a session created by a successful open or create holds the
fresh descriptor, and one release on it issues exactly one backend close,
of exactly that descriptor, leaves the handle slot zeroed and returns 0;
the same holds for the create path. -/
theorem c5_release_closes_once (fd : Nat) (fi0 : FileInfo) (callerFlags : Nat)
    (hfd : fd < 2 ^ 31) :
    (basic_open fi0 (Except.ok fd)).2 = 0 ∧
    (basic_open fi0 (Except.ok fd)).1.fh = fd ∧
    (basic_release (basic_open fi0 (Except.ok fd)).1).closeCalls = [(fd : Int)] ∧
    (basic_release (basic_open fi0 (Except.ok fd)).1).fi.fh = 0 ∧
    (basic_release (basic_open fi0 (Except.ok fd)).1).ret = 0 ∧
    (basic_create callerFlags fi0 (Except.ok fd)).2.1.fh = fd ∧
    (basic_release (basic_create callerFlags fi0 (Except.ok fd)).2.1).closeCalls
      = [(fd : Int)] := by
  have hmod : fd % 2 ^ 32 = fd := Nat.mod_eq_of_lt (lt_trans hfd (by norm_num))
  have hcast : toCInt fd = (fd : Int) := by
    simp only [toCInt, hmod]
    rw [if_pos hfd]
  have hnonneg : 0 ≤ toCInt fd := by
    rw [hcast]; exact Int.natCast_nonneg fd
  refine ⟨rfl, rfl, ?_, ?_, ?_, rfl, ?_⟩ <;>
    simp [basic_open, basic_create, basic_release, hnonneg, hcast]

/-- Witness for C5 at the concrete descriptor 5. -/
theorem c5_release_closes_once_witness :
    (5 : Nat) < 2 ^ 31 ∧
    ((basic_open ⟨0⟩ (Except.ok 5)).2 = 0 ∧
     (basic_open ⟨0⟩ (Except.ok 5)).1.fh = 5 ∧
     (basic_release (basic_open ⟨0⟩ (Except.ok 5)).1).closeCalls = [(5 : Int)] ∧
     (basic_release (basic_open ⟨0⟩ (Except.ok 5)).1).fi.fh = 0 ∧
     (basic_release (basic_open ⟨0⟩ (Except.ok 5)).1).ret = 0 ∧
     (basic_create 0 ⟨0⟩ (Except.ok 5)).2.1.fh = 5 ∧
     (basic_release (basic_create 0 ⟨0⟩ (Except.ok 5)).2.1).closeCalls = [(5 : Int)]) :=
  ⟨by norm_num, c5_release_closes_once 5 ⟨0⟩ 0 (by norm_num)⟩

/-- Claim C10: after a release on a session whose stored descriptor casts
to a non-negative C int, the handle slot holds 0, that sentinel itself
passes the validity test of release, and a second release on the same
session issues a close on descriptor 0 instead of skipping the close. -/
theorem c10_release_sentinel_not_idempotent (fi : FileInfo)
    (hge : 0 ≤ toCInt fi.fh) :
    (basic_release fi).fi.fh = 0 ∧
    0 ≤ toCInt (basic_release fi).fi.fh ∧
    (basic_release (basic_release fi).fi).closeCalls = [(0 : Int)] := by
  have h1 : basic_release fi = ⟨[toCInt fi.fh], { fh := 0 }, 0⟩ := by
    simp [basic_release, hge]
  have h0 : toCInt 0 = 0 := by decide
  refine ⟨by rw [h1], by rw [h1]; simp [h0], ?_⟩
  rw [h1]
  simp [basic_release, h0]

/-- Witness for C10 at the concrete stored handle 7. -/
theorem c10_release_sentinel_not_idempotent_witness :
    0 ≤ toCInt (FileInfo.mk 7).fh ∧
    ((basic_release ⟨7⟩).fi.fh = 0 ∧
     0 ≤ toCInt (basic_release ⟨7⟩).fi.fh ∧
     (basic_release (basic_release ⟨7⟩).fi).closeCalls = [(0 : Int)]) :=
  ⟨by decide, c10_release_sentinel_not_idempotent ⟨7⟩ (by decide)⟩

/-- Claim C7: a read issues exactly one pread at the given offset for the
requested size, returns the byte count the backend actually read on
success (a value between 0 and the requested size, end-of-stream included,
never mapped to an error), and returns the negated errno exactly when the
backend reports a failure. -/
theorem c7_read_single_pread (size : Nat) (offset : Int) (r : PreadResult)
    (hc : preadConforms size r = true) :
    (basic_read size offset r).calls = [(offset, size)] ∧
    (∀ data, r = PreadResult.ok data →
      (basic_read size offset r).ret = (data.length : Int) ∧
      0 ≤ (basic_read size offset r).ret ∧
      (basic_read size offset r).ret ≤ (size : Int)) ∧
    (∀ e, r = PreadResult.err e →
      (basic_read size offset r).ret = -(e : Int) ∧
      (basic_read size offset r).ret < 0) ∧
    ((basic_read size offset r).ret < 0 ↔ ∃ e, r = PreadResult.err e) := by
  cases r with
  | ok data =>
    simp only [preadConforms, decide_eq_true_eq] at hc
    refine ⟨rfl, ?_, ?_, ?_⟩
    · intro d hd
      have hdd : data = d := by injection hd
      subst hdd
      refine ⟨rfl, ?_, ?_⟩
      · exact Int.natCast_nonneg _
      · have hrw : (basic_read size offset (PreadResult.ok data)).ret = (data.length : Int) :=
          rfl
        rw [hrw]
        exact_mod_cast hc
    · intro e he
      cases he
    · simp [basic_read]
  | err e =>
    simp only [preadConforms, decide_eq_true_eq] at hc
    refine ⟨rfl, ?_, ?_, ?_⟩
    · intro d hd
      cases hd
    · intro e2 he
      cases he
      exact ⟨rfl, by simp [basic_read]; omega⟩
    · constructor
      · intro _
        exact ⟨e, rfl⟩
      · intro _
        simp [basic_read]
        omega

/-- Witness for C7 at a concrete short read of two bytes out of five. -/
theorem c7_read_single_pread_witness :
    preadConforms 5 (PreadResult.ok [10, 20]) = true ∧
    ((basic_read 5 3 (PreadResult.ok [10, 20])).calls = [((3 : Int), 5)] ∧
     (∀ data, PreadResult.ok [10, 20] = PreadResult.ok data →
       (basic_read 5 3 (PreadResult.ok [10, 20])).ret = (data.length : Int) ∧
       0 ≤ (basic_read 5 3 (PreadResult.ok [10, 20])).ret ∧
       (basic_read 5 3 (PreadResult.ok [10, 20])).ret ≤ (5 : Int)) ∧
     (∀ e, PreadResult.ok [10, 20] = PreadResult.err e →
       (basic_read 5 3 (PreadResult.ok [10, 20])).ret = -(e : Int) ∧
       (basic_read 5 3 (PreadResult.ok [10, 20])).ret < 0) ∧
     ((basic_read 5 3 (PreadResult.ok [10, 20])).ret < 0 ↔
       ∃ e, PreadResult.ok [10, 20] = PreadResult.err e)) :=
  ⟨by decide, c7_read_single_pread 5 3 (PreadResult.ok [10, 20]) (by decide)⟩

/-- Claim C8: a write of zero bytes completes with return value 0 and
issues no backend pwrite call at all, whatever the offset and whatever the
backend would have answered. -/
theorem c8_zero_size_write_no_calls (offset : Int) (rs : List PwriteResult) :
    basic_write 0 offset rs = (⟨[], [], WriteOutcome.complete⟩, some (0 : Int)) := by
  simp [basic_write, writeLoop_zero, cReturn]

theorem readdirLoop_all_ok {σ : Type} (filler : σ → List Char → Stat → σ × Bool)
    (hf : ∀ s n st, (filler s n st).2 = false) :
    ∀ (entries : List DirEntry) (s0 : σ),
      readdirLoop filler entries s0 =
        List.foldl (fun s x => (filler s x.1 x.2).1) s0 (statOkEntries entries) := by
  intro entries
  induction entries with
  | nil =>
    intro s0
    simp [readdirLoop, statOkEntries]
  | cons e rest ih =>
    intro s0
    cases hst : e.lstatResult with
    | none =>
      simp [readdirLoop, hst, statOkEntries, List.filterMap_cons]
      simpa [statOkEntries] using ih s0
    | some st =>
      simp only [readdirLoop, hst, hf s0 e.name st, if_false, statOkEntries,
        List.filterMap_cons, Option.map_some, List.foldl_cons]
      simpa [statOkEntries] using ih (filler s0 e.name st).1

/-- Claim C6: when the backend directory open succeeds and the filler never
signals a full buffer, the enumeration feeds the filler exactly the
entries whose per-entry lstat succeeded, in listing order, skipping every
entry whose lstat failed, and the call returns success. -/
theorem c6_readdir_skips_broken_entries {σ : Type} (entries : List DirEntry)
    (filler : σ → List Char → Stat → σ × Bool) (s0 : σ)
    (hf : ∀ s n st, (filler s n st).2 = false) :
    basic_readdir (Except.ok entries) filler s0 =
      (List.foldl (fun s x => (filler s x.1 x.2).1) s0 (statOkEntries entries), 0) := by
  simp only [basic_readdir]
  rw [readdirLoop_all_ok filler hf entries s0]

/-- Witness for C6: a three-entry listing whose middle entry has a failing
lstat yields exactly the first and third entries under the collecting
filler. -/
theorem c6_readdir_skips_broken_entries_witness :
    (∀ s n st, (collectFiller s n st).2 = false) ∧
    basic_readdir
        (Except.ok [⟨"a".data, some ⟨1, 10⟩⟩, ⟨"b".data, none⟩, ⟨"c".data, some ⟨2, 20⟩⟩])
        collectFiller [] =
      (List.foldl (fun s x => (collectFiller s x.1 x.2).1) []
        (statOkEntries
          [⟨"a".data, some ⟨1, 10⟩⟩, ⟨"b".data, none⟩, ⟨"c".data, some ⟨2, 20⟩⟩]), 0) ∧
    basic_readdir
        (Except.ok [⟨"a".data, some ⟨1, 10⟩⟩, ⟨"b".data, none⟩, ⟨"c".data, some ⟨2, 20⟩⟩])
        collectFiller [] =
      ([("a".data, ⟨1, 10⟩), ("c".data, ⟨2, 20⟩)], 0) :=
  ⟨fun _ _ _ => rfl,
   c6_readdir_skips_broken_entries _ collectFiller [] (fun _ _ _ => rfl),
   by decide⟩

/-- Claim C9: whenever the backend directory open succeeds, readdir returns
success whatever the entries and the filler do, and when the lstat of every
entry fails nothing is handed to the filler: the consumer state comes back
untouched. -/
theorem c9_readdir_success_even_if_empty {σ : Type} (entries : List DirEntry)
    (filler : σ → List Char → Stat → σ × Bool) (s0 : σ) :
    (basic_readdir (Except.ok entries) filler s0).2 = 0 ∧
    ((∀ e ∈ entries, e.lstatResult = none) →
      (basic_readdir (Except.ok entries) filler s0).1 = s0) := by
  constructor
  · simp [basic_readdir]
  · intro hall
    simp only [basic_readdir]
    induction entries with
    | nil => simp [readdirLoop]
    | cons e rest ih =>
      have he : e.lstatResult = none := hall e (by simp)
      simp only [readdirLoop, he]
      exact ih (fun x hx => hall x (by simp [hx]))

/-- Witness for C9: a listing of two entries that both fail their lstat
still returns success with the consumer state untouched. -/
theorem c9_readdir_success_even_if_empty_witness :
    (basic_readdir (Except.ok [⟨"a".data, none⟩, ⟨"b".data, none⟩])
        collectFiller []).2 = 0 ∧
    ((∀ e ∈ [DirEntry.mk "a".data none, DirEntry.mk "b".data none],
        e.lstatResult = none) →
      (basic_readdir (Except.ok [⟨"a".data, none⟩, ⟨"b".data, none⟩])
          collectFiller []).1 = []) :=
  c9_readdir_success_even_if_empty
    [⟨"a".data, none⟩, ⟨"b".data, none⟩] collectFiller []

theorem writeLoop_complete_sum (rs : List PwriteResult) :
    ∀ (tw : Nat) (off : Int), conformsW tw rs = true →
      (writeLoop tw off rs).outcome = WriteOutcome.complete →
      (writeLoop tw off rs).accepted.sum = tw := by
  induction rs with
  | nil =>
    intro tw off _ hout
    cases tw with
    | zero => simp [writeLoop_zero]
    | succ tw => rw [writeLoop_nil] at hout; exact absurd hout (by simp)
  | cons head rest ih =>
    intro tw off hc hout
    cases tw with
    | zero => simp [writeLoop_zero]
    | succ tw =>
      cases head with
      | err e =>
        by_cases he : e = EINTR
        · rw [writeLoop_err, if_pos he] at hout ⊢
          simp only at hout ⊢
          have hc2 : conformsW (tw + 1) rest = true := by
            simp only [conformsW, Bool.and_eq_true] at hc
            exact hc.2
          exact ih (tw + 1) off hc2 hout
        · rw [writeLoop_err, if_neg he] at hout
          simp at hout
      | ok n =>
        rw [writeLoop_ok] at hout ⊢
        simp only at hout ⊢
        simp only [conformsW, Bool.and_eq_true, decide_eq_true_eq] at hc
        have hsum := ih (tw + 1 - n) (off + (n : Int)) hc.2 hout
        simp only [List.sum_cons, hsum]
        omega

theorem writeLoop_fail_char (rs : List PwriteResult) :
    ∀ (tw : Nat) (off : Int) (e : Nat),
      (writeLoop tw off rs).outcome = WriteOutcome.fail e →
      e ≠ EINTR ∧
      ∃ pre post, rs = pre ++ PwriteResult.err e :: post ∧
        (∀ r ∈ pre, isHard r = false) ∧
        (writeLoop tw off rs).calls.length = pre.length + 1 := by
  induction rs with
  | nil =>
    intro tw off e hout
    cases tw with
    | zero => simp [writeLoop_zero] at hout
    | succ tw => simp [writeLoop_nil] at hout
  | cons head rest ih =>
    intro tw off e hout
    cases tw with
    | zero => simp [writeLoop_zero] at hout
    | succ tw =>
      cases head with
      | err e2 =>
        by_cases he : e2 = EINTR
        · rw [writeLoop_err, if_pos he] at hout
          simp only at hout
          obtain ⟨hne, pre, post, hsplit, hpre, hlen⟩ := ih (tw + 1) off e hout
          refine ⟨hne, PwriteResult.err e2 :: pre, post, by rw [hsplit]; rfl, ?_, ?_⟩
          · intro r hr
            rcases List.mem_cons.mp hr with h | h
            · subst h; simp [isHard, he]
            · exact hpre r h
          · rw [writeLoop_err, if_pos he]
            simp only [List.length_cons, hlen]
        · rw [writeLoop_err, if_neg he] at hout
          simp only at hout
          have heq : e2 = e := by
            simpa using hout
          subst heq
          refine ⟨he, [], rest, rfl, by simp, ?_⟩
          rw [writeLoop_err, if_neg he]
          simp
      | ok n =>
        rw [writeLoop_ok] at hout
        simp only at hout
        obtain ⟨hne, pre, post, hsplit, hpre, hlen⟩ :=
          ih (tw + 1 - n) (off + (n : Int)) e hout
        refine ⟨hne, PwriteResult.ok n :: pre, post, by rw [hsplit]; rfl, ?_, ?_⟩
        · intro r hr
          rcases List.mem_cons.mp hr with h | h
          · subst h; simp [isHard]
          · exact hpre r h
        · rw [writeLoop_ok]
          simp only [List.length_cons, hlen]

theorem conformsW_err_pos (rs : List PwriteResult) :
    ∀ tw : Nat, conformsW tw rs = true →
      ∀ e : Nat, PwriteResult.err e ∈ rs → 1 ≤ e := by
  induction rs with
  | nil =>
    intro tw _ e he
    simp at he
  | cons head rest ih =>
    intro tw hc e he
    cases head with
    | err e2 =>
      simp only [conformsW, Bool.and_eq_true, decide_eq_true_eq] at hc
      rcases List.mem_cons.mp he with h | h
      · injection h with h2
        omega
      · exact ih tw hc.2 e h
    | ok n =>
      simp only [conformsW, Bool.and_eq_true, decide_eq_true_eq] at hc
      rcases List.mem_cons.mp he with h | h
      · simp at h
      · exact ih (tw - n) hc.2 e h

theorem writeLoop_settles (rs : List PwriteResult) :
    ∀ (tw : Nat) (off : Int),
      (tw ≤ totalOk rs ∨ hasHardError rs = true) →
      (writeLoop tw off rs).outcome ≠ WriteOutcome.pending := by
  induction rs with
  | nil =>
    intro tw off h
    cases tw with
    | zero => simp [writeLoop_zero]
    | succ tw =>
      rcases h with h | h
      · simp [totalOk] at h
      · simp [hasHardError] at h
  | cons head rest ih =>
    intro tw off h
    cases tw with
    | zero => simp [writeLoop_zero]
    | succ tw =>
      cases head with
      | err e2 =>
        by_cases he : e2 = EINTR
        · rw [writeLoop_err, if_pos he]
          show (writeLoop (tw + 1) off rest).outcome ≠ WriteOutcome.pending
          apply ih (tw + 1) off
          rcases h with h | h
          · left
            simpa [totalOk] using h
          · right
            simpa [hasHardError, he] using h
        · rw [writeLoop_err, if_neg he]
          simp
      | ok n =>
        rw [writeLoop_ok]
        show (writeLoop (tw + 1 - n) (off + (n : Int)) rest).outcome ≠ WriteOutcome.pending
        apply ih (tw + 1 - n) (off + (n : Int))
        rcases h with h | h
        · left
          simp only [totalOk] at h
          omega
        · right
          simpa [hasHardError] using h

theorem writeLoop_call_bound (rs : List PwriteResult) :
    ∀ (tw : Nat) (off : Int),
      conformsW tw rs = true → progressW tw rs = true →
      (writeLoop tw off rs).calls.length ≤ tw + countEintr rs + 1 := by
  induction rs with
  | nil =>
    intro tw off _ _
    cases tw with
    | zero => simp [writeLoop_zero]
    | succ tw => simp [writeLoop_nil]
  | cons head rest ih =>
    intro tw off hc hp
    cases tw with
    | zero => simp [writeLoop_zero]
    | succ tw =>
      cases head with
      | err e2 =>
        simp only [conformsW, Bool.and_eq_true, decide_eq_true_eq] at hc
        by_cases he : e2 = EINTR
        · rw [writeLoop_err, if_pos he]
          have hrec := ih (tw + 1) off hc.2 (by simpa [progressW] using hp)
          have hcount : countEintr (PwriteResult.err e2 :: rest) = 1 + countEintr rest := by
            simp [countEintr, he]
          simp only [List.length_cons]
          omega
        · rw [writeLoop_err, if_neg he]
          simp only [List.length_cons, List.length_nil]
          omega
      | ok n =>
        simp only [conformsW, Bool.and_eq_true, decide_eq_true_eq] at hc
        simp only [progressW, Bool.and_eq_true, decide_eq_true_eq] at hp
        rw [writeLoop_ok]
        have hrec := ih (tw + 1 - n) (off + (n : Int)) hc.2 hp.2
        have hcount : countEintr (PwriteResult.ok n :: rest) = countEintr rest := by
          simp [countEintr]
        simp only [List.length_cons]
        omega

/-- Claim C1: for a conforming backend, a write either completes with the
backend having accepted exactly the requested byte total and the C return
value equal to the requested length, or fails at the first non-interrupt
error response with the negated errno of that response as return value and
no further pwrite issued after it; every returned value is either the full
requested length or negative, so a short write is never reported. -/
theorem c1_write_all_or_first_error (size : Nat) (off : Int) (rs : List PwriteResult)
    (hc : conformsW size rs = true) :
    ((writeLoop size off rs).outcome = WriteOutcome.complete →
      (writeLoop size off rs).accepted.sum = size ∧
      cReturn size (writeLoop size off rs).outcome = some (size : Int)) ∧
    (∀ e, (writeLoop size off rs).outcome = WriteOutcome.fail e →
      e ≠ EINTR ∧ 1 ≤ e ∧
      cReturn size (writeLoop size off rs).outcome = some (-(e : Int)) ∧
      ∃ pre post, rs = pre ++ PwriteResult.err e :: post ∧
        (∀ r ∈ pre, isHard r = false) ∧
        (writeLoop size off rs).calls.length = pre.length + 1) ∧
    (∀ v, cReturn size (writeLoop size off rs).outcome = some v →
      v = (size : Int) ∨ v < 0) := by
  refine ⟨?_, ?_, ?_⟩
  · intro hout
    refine ⟨writeLoop_complete_sum rs size off hc hout, ?_⟩
    rw [hout]
    rfl
  · intro e hout
    obtain ⟨hne, pre, post, hsplit, hpre, hlen⟩ := writeLoop_fail_char rs size off e hout
    have hmem : PwriteResult.err e ∈ rs := by
      rw [hsplit]; simp
    have hpos := conformsW_err_pos rs size hc e hmem
    exact ⟨hne, hpos, by rw [hout]; rfl, pre, post, hsplit, hpre, hlen⟩
  · intro v hv
    cases hout : (writeLoop size off rs).outcome with
    | complete =>
      left
      rw [hout] at hv
      simp only [cReturn, Option.some_inj] at hv
      omega
    | fail e =>
      right
      obtain ⟨hne, pre, post, hsplit, hpre, hlen⟩ := writeLoop_fail_char rs size off e hout
      have hmem : PwriteResult.err e ∈ rs := by
        rw [hsplit]; simp
      have hpos := conformsW_err_pos rs size hc e hmem
      rw [hout] at hv
      simp only [cReturn, Option.some_inj] at hv
      omega
    | pending =>
      rw [hout] at hv
      simp [cReturn] at hv

/-- Witness for C1 at a concrete run: three bytes requested, the backend
accepts two, reports an interrupt, then accepts the last byte. -/
theorem c1_write_all_or_first_error_witness :
    conformsW 3 [PwriteResult.ok 2, PwriteResult.err EINTR, PwriteResult.ok 1] = true ∧
    (((writeLoop 3 5 [PwriteResult.ok 2, PwriteResult.err EINTR, PwriteResult.ok 1]).outcome
        = WriteOutcome.complete →
      (writeLoop 3 5
          [PwriteResult.ok 2, PwriteResult.err EINTR, PwriteResult.ok 1]).accepted.sum = 3 ∧
      cReturn 3 (writeLoop 3 5
          [PwriteResult.ok 2, PwriteResult.err EINTR, PwriteResult.ok 1]).outcome
        = some (3 : Int)) ∧
    (∀ e, (writeLoop 3 5
          [PwriteResult.ok 2, PwriteResult.err EINTR, PwriteResult.ok 1]).outcome
        = WriteOutcome.fail e →
      e ≠ EINTR ∧ 1 ≤ e ∧
      cReturn 3 (writeLoop 3 5
          [PwriteResult.ok 2, PwriteResult.err EINTR, PwriteResult.ok 1]).outcome
        = some (-(e : Int)) ∧
      ∃ pre post,
        [PwriteResult.ok 2, PwriteResult.err EINTR, PwriteResult.ok 1]
          = pre ++ PwriteResult.err e :: post ∧
        (∀ r ∈ pre, isHard r = false) ∧
        (writeLoop 3 5
            [PwriteResult.ok 2, PwriteResult.err EINTR,
              PwriteResult.ok 1]).calls.length = pre.length + 1) ∧
    (∀ v, cReturn 3 (writeLoop 3 5
          [PwriteResult.ok 2, PwriteResult.err EINTR, PwriteResult.ok 1]).outcome
        = some v →
      v = (3 : Int) ∨ v < 0)) :=
  ⟨by decide,
   c1_write_all_or_first_error 3 5
     [PwriteResult.ok 2, PwriteResult.err EINTR, PwriteResult.ok 1] (by decide)⟩

/-- Claim C2: for a conforming backend that accepts at least one byte on
every successful response, the retry loop issues at most one pwrite per
remaining byte plus one per interrupt response plus one final failing call,
and it does not run out of responses while bytes remain whenever the
backend eventually accepts the requested total or reports a non-interrupt
error; so the loop terminates with a settled outcome in every such run. -/
theorem c2_write_loop_terminates (size : Nat) (off : Int) (rs : List PwriteResult)
    (hc : conformsW size rs = true) (hp : progressW size rs = true) :
    (writeLoop size off rs).calls.length ≤ size + countEintr rs + 1 ∧
    ((size ≤ totalOk rs ∨ hasHardError rs = true) →
      (writeLoop size off rs).outcome ≠ WriteOutcome.pending) :=
  ⟨writeLoop_call_bound rs size off hc hp, fun h => writeLoop_settles rs size off h⟩

/-- Witness for C2 at a concrete run: two bytes requested, the backend
reports an interrupt and then accepts one byte twice. -/
theorem c2_write_loop_terminates_witness :
    conformsW 2 [PwriteResult.err EINTR, PwriteResult.ok 1, PwriteResult.ok 1] = true ∧
    progressW 2 [PwriteResult.err EINTR, PwriteResult.ok 1, PwriteResult.ok 1] = true ∧
    ((writeLoop 2 0
        [PwriteResult.err EINTR, PwriteResult.ok 1, PwriteResult.ok 1]).calls.length
      ≤ 2 + countEintr [PwriteResult.err EINTR, PwriteResult.ok 1, PwriteResult.ok 1] + 1 ∧
    ((2 ≤ totalOk [PwriteResult.err EINTR, PwriteResult.ok 1, PwriteResult.ok 1] ∨
        hasHardError [PwriteResult.err EINTR, PwriteResult.ok 1, PwriteResult.ok 1] = true) →
      (writeLoop 2 0
          [PwriteResult.err EINTR, PwriteResult.ok 1, PwriteResult.ok 1]).outcome
        ≠ WriteOutcome.pending)) :=
  ⟨by decide, by decide,
   c2_write_loop_terminates 2 0
     [PwriteResult.err EINTR, PwriteResult.ok 1, PwriteResult.ok 1]
     (by decide) (by decide)⟩

end BasicFuse
